import Mathlib

/-!
Shallow embedding of the `u32` integer value type of the subspace
repository (`sus::num::u32`), and proofs of the behavioral claims made
by its specification.

The repository sources available here contain the behavioral unit tests
(`src/sus/num/u32_unittest.cc`) but not the implementation headers, so
each operation is modelled from the specification text, with every
concrete value cross-checked against the expected values asserted by the
unit tests.

A `u32` value is modelled as a natural number `a` with the range
invariant `a < 2 ^ 32`.  Operations whose default form traps (fail-fast
process termination with a diagnostic string) are modelled as returning
`Except String Nat`: `Except.error msg` is the trap carrying its
diagnostic message, `Except.ok v` is normal completion.  `checked_*`
operations return `Option Nat` (`none` is the absent result), and
`overflowing_*` operations return a `Nat × Bool` pair.
-/

namespace Sus.U32

/-- The number of bits in a u32: `u32::BITS`. -/
def BITS : Nat := 32

/-- One past the largest u32 value, i.e. `2 ^ BITS`. -/
def size : Nat := 2 ^ 32

/-- The largest u32 value, `u32::MAX = 2^32 - 1`. -/
def MAX : Nat := 2 ^ 32 - 1

/-- The smallest u32 value, `u32::MIN = 0`. -/
def MIN : Nat := 0

/-- Modelled from the spec: `wrapping_add` reduces the true mathematical
sum modulo `2^BITS` (spec section 4.1 table and section 8). -/
def wrapping_add (a b : Nat) : Nat := (a + b) % size

/-- Modelled from the spec: `overflowing_add` returns the wrapped result
together with an overflow flag.  Spec section 4.1 gives the unsigned
detection rule in implementation form: the sum overflows iff the wrapped
result is less than either operand; the flag here uses that rule. -/
def overflowing_add (a b : Nat) : Nat × Bool :=
  ((a + b) % size, decide ((a + b) % size < a))

/-- Modelled from the spec: `checked_add` returns an absent result when
the addition overflows, and the sum otherwise (spec section 4.1 table),
defined from `overflowing_add` by dropping the flagged result. -/
def checked_add (a b : Nat) : Option Nat :=
  if (overflowing_add a b).2 then none else some (overflowing_add a b).1

/-- Modelled from the spec: `saturating_add` clamps to `MAX` on overflow
and returns the exact sum otherwise (spec sections 4.1 and 8). -/
def saturating_add (a b : Nat) : Nat :=
  if size ≤ a + b then MAX else a + b

theorem size_pos : 0 < size := by decide

/-- The overflow flag of `overflowing_add` is set exactly when the true
mathematical sum reaches `2^32`, for in-range operands. -/
theorem overflowing_add_flag (a b : Nat) (ha : a < size) (hb : b < size) :
    (overflowing_add a b).2 = decide (size ≤ a + b) := by
  unfold overflowing_add
  simp only [size] at *
  exact decide_eq_decide.mpr (by omega)

/-- The diagnostic message of the division-by-zero trap, as asserted by
the death tests in `src/sus/num/u32_unittest.cc`. -/
def div_by_zero_msg : String := "attempt to divide by zero"

/-- The diagnostic message of the remainder-by-zero trap, as asserted by
the death tests in `src/sus/num/u32_unittest.cc`. -/
def rem_by_zero_msg : String :=
  "attempt to calculate the remainder with a divisor of zero"

/-- Modelled from the spec: the default division operator traps when the
divisor is zero (spec section 4.1) and otherwise returns the truncating
unsigned quotient; the trap diagnostic is the one the death tests
expect. -/
def div (a b : Nat) : Except String Nat :=
  if b = 0 then Except.error div_by_zero_msg else Except.ok (a / b)

/-- Modelled from the spec and the death test
`u32DeathTest.WrappingDivByZero`: unsigned division cannot overflow, so
`wrapping_div` returns the plain quotient, but it still traps when the
divisor is zero. -/
def wrapping_div (a b : Nat) : Except String Nat :=
  if b = 0 then Except.error div_by_zero_msg else Except.ok (a / b)

/-- Modelled from the spec and the death test
`u32DeathTest.SaturatingDivByZero`: unsigned division cannot overflow,
so `saturating_div` returns the plain quotient, but it still traps when
the divisor is zero. -/
def saturating_div (a b : Nat) : Except String Nat :=
  if b = 0 then Except.error div_by_zero_msg else Except.ok (a / b)

/-- Modelled from the spec and the death test
`u32DeathTest.OverflowingDivByZero`: `overflowing_div` returns the
quotient with a false overflow flag (unsigned division cannot overflow),
but traps when the divisor is zero. -/
def overflowing_div (a b : Nat) : Except String (Nat × Bool) :=
  if b = 0 then Except.error div_by_zero_msg else Except.ok (a / b, false)

/-- Modelled from the spec: `checked_div` converts the zero-divisor trap
into an absent result (spec section 4.1 table). -/
def checked_div (a b : Nat) : Option Nat :=
  if b = 0 then none else some (a / b)

/-- Modelled from the spec: the default remainder operator traps when
the divisor is zero (spec section 4.1) and otherwise returns the
unsigned remainder. -/
def rem (a b : Nat) : Except String Nat :=
  if b = 0 then Except.error rem_by_zero_msg else Except.ok (a % b)

/-- Modelled from the spec and the death test
`u32DeathTest.WrappingRemByZero`: `wrapping_rem` returns the plain
remainder but still traps when the divisor is zero. -/
def wrapping_rem (a b : Nat) : Except String Nat :=
  if b = 0 then Except.error rem_by_zero_msg else Except.ok (a % b)

/-- Modelled from the spec and the death test
`u32DeathTest.OverflowingRemByZero`: `overflowing_rem` returns the
remainder with a false overflow flag, but traps when the divisor is
zero. -/
def overflowing_rem (a b : Nat) : Except String (Nat × Bool) :=
  if b = 0 then Except.error rem_by_zero_msg else Except.ok (a % b, false)

/-- Modelled from the spec: `checked_rem` converts the zero-divisor trap
into an absent result. -/
def checked_rem (a b : Nat) : Option Nat :=
  if b = 0 then none else some (a % b)

/-- Modelled from the spec: for unsigned operands `div_euclid` is
identical to ordinary truncating division (spec section 4.5), trapping
on a zero divisor as the death test `u32DeathTest.DivEuclidOverflow`
expects. -/
def div_euclid (a b : Nat) : Except String Nat :=
  if b = 0 then Except.error div_by_zero_msg else Except.ok (a / b)

/-- Modelled from the spec: for unsigned operands `rem_euclid` is
identical to the ordinary remainder (spec section 4.5), trapping on a
zero divisor as the death test `u32DeathTest.RemEuclidOverflow`
expects. -/
def rem_euclid (a b : Nat) : Except String Nat :=
  if b = 0 then Except.error rem_by_zero_msg else Except.ok (a % b)

/-- The diagnostic message of the multiplication-overflow trap, as
asserted by `u32DeathTest.PowOverflow`. -/
def mul_overflow_msg : String := "attempt to multiply with overflow"

/-- The diagnostic message of the addition-overflow trap, as asserted by
`u32DeathTest.AddOverflow` and `u32DeathTest.NextPowerOfTwoOutOfBounds`. -/
def add_overflow_msg : String := "attempt to add with overflow"

/-- Modelled from the spec: the default `pow` computes exponentiation
with overflow propagation and traps (with a multiplication-overflow
diagnostic, per `u32DeathTest.PowOverflow`) when the exact result does
not fit in 32 bits; the observable contract is the exact power when it
is representable. -/
def pow (a e : Nat) : Except String Nat :=
  if a ^ e < size then Except.ok (a ^ e) else Except.error mul_overflow_msg

/-- Modelled from the spec: `checked_pow` returns an absent result
instead of trapping when the power overflows. -/
def checked_pow (a e : Nat) : Option Nat :=
  if a ^ e < size then some (a ^ e) else none

/-- Modelled from the spec: `overflowing_pow` returns the power reduced
modulo `2^BITS` together with a flag recording whether overflow
occurred. -/
def overflowing_pow (a e : Nat) : Nat × Bool :=
  (a ^ e % size, decide (size ≤ a ^ e))

/-- Modelled from the spec: `wrapping_pow` reduces the exact power
modulo `2^BITS`. -/
def wrapping_pow (a e : Nat) : Nat := a ^ e % size

/-- Modelled from the spec: `rotate_left` rotates the 32-bit pattern
left by the rotation amount taken modulo `BITS` and never fails (spec
section 4.2).  Expressed arithmetically: the low `32 - k` bits move up
by `k` places and the high `k` bits wrap around to the bottom, for
`k = n % 32`. -/
def rotate_left (x n : Nat) : Nat :=
  x % 2 ^ (32 - n % 32) * 2 ^ (n % 32) + x / 2 ^ (32 - n % 32)

/-- Modelled from the spec: `rotate_right` rotates the 32-bit pattern
right by the rotation amount taken modulo `BITS` and never fails (spec
section 4.2).  Expressed arithmetically: the low `k` bits wrap around to
the top and the high `32 - k` bits move down by `k` places, for
`k = n % 32`. -/
def rotate_right (x n : Nat) : Nat :=
  x % 2 ^ (n % 32) * 2 ^ (32 - n % 32) + x / 2 ^ (n % 32)

/-- Modelled from the spec: `to_be_bytes` produces the four bytes of the
value most-significant first (spec sections 4.2 and 6). -/
def to_be_bytes (x : Nat) : Nat × Nat × Nat × Nat :=
  (x / 2 ^ 24 % 256, x / 2 ^ 16 % 256, x / 2 ^ 8 % 256, x % 256)

/-- Modelled from the spec: `to_le_bytes` produces the four bytes of the
value least-significant first. -/
def to_le_bytes (x : Nat) : Nat × Nat × Nat × Nat :=
  (x % 256, x / 2 ^ 8 % 256, x / 2 ^ 16 % 256, x / 2 ^ 24 % 256)

/-- Modelled from the spec: `from_be_bytes` reconstructs the value from
four bytes given most-significant first. -/
def from_be_bytes (b : Nat × Nat × Nat × Nat) : Nat :=
  b.1 * 2 ^ 24 + b.2.1 * 2 ^ 16 + b.2.2.1 * 2 ^ 8 + b.2.2.2

/-- Modelled from the spec: `from_le_bytes` reconstructs the value from
four bytes given least-significant first. -/
def from_le_bytes (b : Nat × Nat × Nat × Nat) : Nat :=
  b.1 + b.2.1 * 2 ^ 8 + b.2.2.1 * 2 ^ 16 + b.2.2.2 * 2 ^ 24

/-- The byte order of the execution platform, abstracted so that the
native-endian operations can be stated for either platform kind, as the
`u32.ToNeBytes` test does with its compile-time endianness branch. -/
inductive Endian where
  | big : Endian
  | little : Endian

/-- Modelled from the spec: `to_ne_bytes` produces the four bytes in the
platform byte order. -/
def to_ne_bytes (e : Endian) (x : Nat) : Nat × Nat × Nat × Nat :=
  match e with
  | Endian.big => to_be_bytes x
  | Endian.little => to_le_bytes x

/-- Modelled from the spec: `from_ne_bytes` reconstructs the value from
four bytes given in the platform byte order. -/
def from_ne_bytes (e : Endian) (b : Nat × Nat × Nat × Nat) : Nat :=
  match e with
  | Endian.big => from_be_bytes b
  | Endian.little => from_le_bytes b

/-- Modelled from the spec: the smallest power of two greater than or
equal to `x`, taken as `1` when `x == 0` (spec section 4.3); `2 ^ clog2 x`
is exactly that value. -/
def npot (x : Nat) : Nat := 2 ^ Nat.clog 2 x

/-- Modelled from the spec: the default `next_power_of_two` returns the
smallest power of two at or above `x` and traps when that power is not
representable in 32 bits; the trap diagnostic is the addition-overflow
message that `u32DeathTest.NextPowerOfTwoOutOfBounds` expects. -/
def next_power_of_two (x : Nat) : Except String Nat :=
  if npot x ≤ MAX then Except.ok (npot x) else Except.error add_overflow_msg

/-- Modelled from the spec: `checked_next_power_of_two` returns an
absent result when no representable power of two exists. -/
def checked_next_power_of_two (x : Nat) : Option Nat :=
  if npot x ≤ MAX then some (npot x) else none

/-- Modelled from the spec: `wrapping_next_power_of_two` returns the
conceptual next power of two reduced modulo `2^BITS`, which is `0` in
the overflow case. -/
def wrapping_next_power_of_two (x : Nat) : Nat := npot x % size

/-- Modelled from the spec: `abs_diff` returns the absolute difference
of the two values, which always fits in a u32. -/
def abs_diff (a b : Nat) : Nat := if b ≤ a then a - b else b - a

/-- Modelled from the spec: the fallible conversion `u32::try_from`
accepts any source integer value (of any width and signedness, so the
source is modelled as an unbounded `Int`), succeeds exactly when the
value is within u32 range, and reports a range error otherwise (spec
section 4.6), here modelled as the absent result of an `Option`. -/
def try_from (v : Int) : Option Nat :=
  if 0 ≤ v ∧ v < (size : Int) then some v.toNat else none

/-- Claim C1, counterexample: contrary to the claim that the wrapping
and saturating forms of division and remainder return a value for every
divisor including zero, `wrapping_div`, `saturating_div` and
`wrapping_rem` all trap with a diagnostic when the divisor is zero, as
the death tests `u32DeathTest.WrappingDivByZero`,
`u32DeathTest.SaturatingDivByZero` and `u32DeathTest.WrappingRemByZero`
assert. -/
theorem claim_C1_counterexample :
    wrapping_div 4294967295 0 = Except.error div_by_zero_msg ∧
    saturating_div 4294967295 0 = Except.error div_by_zero_msg ∧
    wrapping_rem 4294967295 0 = Except.error rem_by_zero_msg :=
  ⟨rfl, rfl, rfl⟩

/-- Claim C1, amended: for every u32 value a, `wrapping_div(a, b)`,
`wrapping_rem(a, b)` and `saturating_div(a, b)` return a value (rather
than trapping) for every nonzero divisor b; when b is zero all three
trap with the division- or remainder-by-zero diagnostic. -/
theorem claim_C1_amended (a b : Nat) (hb : b ≠ 0) :
    wrapping_div a b = Except.ok (a / b) ∧
    wrapping_rem a b = Except.ok (a % b) ∧
    saturating_div a b = Except.ok (a / b) := by
  unfold wrapping_div wrapping_rem saturating_div
  simp [hb]

/-- Claim C1, witness: the amended theorem applied at a = 2345, b = 1. -/
theorem claim_C1_witness : wrapping_div 2345 1 = Except.ok 2345 :=
  (claim_C1_amended 2345 1 (by decide)).1

/-- Claim C2, counterexample: contrary to the claim that
`overflowing_div` and `overflowing_rem` always succeed structurally
including when the divisor is zero, both trap with a diagnostic when the
divisor is zero, as the death tests
`u32DeathTest.OverflowingDivByZero` and
`u32DeathTest.OverflowingRemByZero` assert. -/
theorem claim_C2_counterexample :
    overflowing_div 4294967295 0 = Except.error div_by_zero_msg ∧
    overflowing_rem 4294967295 0 = Except.error rem_by_zero_msg :=
  ⟨rfl, rfl⟩

/-- Claim C2, amended: for every pair of u32 values a and b with b
nonzero, `overflowing_div(a, b)` and `overflowing_rem(a, b)` succeed
structurally, returning a (wrapped_result, overflow_flag) pair whose
flag is false (unsigned division cannot overflow); when the divisor is
zero both trap. -/
theorem claim_C2_amended (a b : Nat) (hb : b ≠ 0) :
    overflowing_div a b = Except.ok (a / b, false) ∧
    overflowing_rem a b = Except.ok (a % b, false) := by
  unfold overflowing_div overflowing_rem
  simp [hb]

/-- Claim C2, witness: the amended theorem applied at a = 4, b = 2. -/
theorem claim_C2_witness : overflowing_div 4 2 = Except.ok (2, false) :=
  (claim_C2_amended 4 2 (by decide)).1

/-- Claim C3: for in-range u32 operands, `wrapping_add` is addition
modulo 2^32, `overflowing_add` pairs the wrapped sum with a flag that is
set exactly when the true sum reaches 2^32, and `checked_add` is absent
exactly when that flag is set and otherwise holds the wrapped sum. -/
theorem claim_C3_add_family (a b : Nat) (ha : a < size) (hb : b < size) :
    wrapping_add a b = (a + b) % 2 ^ 32 ∧
    overflowing_add a b = (wrapping_add a b, decide (2 ^ 32 ≤ a + b)) ∧
    (checked_add a b = none ↔ (overflowing_add a b).2 = true) ∧
    ((overflowing_add a b).2 = false →
      checked_add a b = some (wrapping_add a b)) := by
  have hflag := overflowing_add_flag a b ha hb
  refine ⟨rfl, Prod.ext rfl hflag, ?_, ?_⟩
  · unfold checked_add
    cases h2 : (overflowing_add a b).2 <;> simp [h2]
  · intro h2
    unfold checked_add
    simp [h2]
    rfl

/-- Claim C3, witness: the theorem applied at a = u32::MAX, b = 1, where
the checked sum is absent. -/
theorem claim_C3_witness : checked_add 4294967295 1 = none :=
  ((claim_C3_add_family 4294967295 1 (by decide) (by decide)).2.2.1).mpr
    (by decide)

/-- Claim C7: for every u32 value a and nonzero divisor b, `div_euclid`
agrees with the ordinary truncating division operator and `rem_euclid`
agrees with the ordinary remainder operator, and concretely
div_euclid(7, 4) = 1 and rem_euclid(7, 4) = 3. -/
theorem claim_C7_euclid (a b : Nat) (hb : b ≠ 0) :
    div_euclid a b = div a b ∧
    rem_euclid a b = rem a b ∧
    div_euclid 7 4 = Except.ok 1 ∧
    rem_euclid 7 4 = Except.ok 3 :=
  ⟨rfl, rfl, rfl, rfl⟩

/-- Claim C7, witness: the theorem applied at a = 7, b = 4. -/
theorem claim_C7_witness : div_euclid 7 4 = Except.ok 1 :=
  (claim_C7_euclid 7 4 (by decide)).2.2.1

/-- Claim C9: raising any u32 base to the exponent zero yields one with
no overflow in every form: the default `pow` returns 1 without trapping,
`checked_pow` returns a present 1, `overflowing_pow` returns (1, false),
and `wrapping_pow` returns 1. -/
theorem claim_C9_pow_zero (x : Nat) :
    pow x 0 = Except.ok 1 ∧
    checked_pow x 0 = some 1 ∧
    overflowing_pow x 0 = (1, false) ∧
    wrapping_pow x 0 = 1 := by
  unfold pow checked_pow overflowing_pow wrapping_pow size
  norm_num

/-- Claim C9, witness: the theorem applied at the base u32::MAX. -/
theorem claim_C9_witness : pow 4294967295 0 = Except.ok 1 :=
  (claim_C9_pow_zero 4294967295).1

/-- Claim C10: for in-range u32 operands, `abs_diff` always returns an
in-range value, equals the difference of the larger and the smaller
operand, and is symmetric in its arguments. -/
theorem claim_C10_abs_diff (a b : Nat) (ha : a < size) (hb : b < size) :
    abs_diff a b = max a b - min a b ∧
    abs_diff a b = abs_diff b a ∧
    abs_diff a b < size := by
  unfold abs_diff size at *
  refine ⟨?_, ?_, ?_⟩ <;> split_ifs <;> omega

/-- Claim C10, witness: the theorem applied at a = u32::MAX,
b = u32::MIN, the extreme pair the unit test exercises. -/
theorem claim_C10_witness :
    abs_diff 4294967295 0 = max 4294967295 0 - min 4294967295 0 :=
  (claim_C10_abs_diff 4294967295 0 (by decide) (by decide)).1

theorem be_round_trip (x : Nat) (hx : x < size) :
    from_be_bytes (to_be_bytes x) = x := by
  unfold from_be_bytes to_be_bytes
  unfold size at hx
  norm_num
  omega

theorem le_round_trip (x : Nat) (hx : x < size) :
    from_le_bytes (to_le_bytes x) = x := by
  unfold from_le_bytes to_le_bytes
  unfold size at hx
  norm_num
  omega

/-- Claim C4: for every in-range u32 value, the big-endian,
little-endian and native-endian byte conversions round-trip, and the
byte sequences of 0x12345678 are exactly the ones the unit tests
`u32.ToBeBytes` and `u32.ToLeBytes` assert, most-significant first for
the big-endian order. -/
theorem claim_C4_bytes (x : Nat) (hx : x < size) :
    from_be_bytes (to_be_bytes x) = x ∧
    from_le_bytes (to_le_bytes x) = x ∧
    (∀ e, from_ne_bytes e (to_ne_bytes e x) = x) ∧
    to_be_bytes 0x12345678 = (0x12, 0x34, 0x56, 0x78) ∧
    to_le_bytes 0x12345678 = (0x78, 0x56, 0x34, 0x12) := by
  refine ⟨be_round_trip x hx, le_round_trip x hx, ?_, by decide, by decide⟩
  intro e
  cases e
  · exact be_round_trip x hx
  · exact le_round_trip x hx

/-- Claim C4, witness: the theorem applied at x = 0x12345678. -/
theorem claim_C4_witness :
    from_be_bytes (to_be_bytes 0x12345678) = 0x12345678 :=
  (claim_C4_bytes 0x12345678 (by decide)).1

theorem rot_chunk_lt (x A B : Nat) (hx : x < B * A) :
    x % B * A + x / B < B * A := by
  have hB : 0 < B := by
    cases B with
    | zero => simp at hx
    | succ n => exact Nat.succ_pos n
  have hdiv : x / B < A := by
    rw [Nat.div_lt_iff_lt_mul hB, mul_comm]
    exact hx
  have hmod : x % B < B := Nat.mod_lt _ hB
  calc x % B * A + x / B < x % B * A + A := by omega
    _ = (x % B + 1) * A := by ring
    _ ≤ B * A := mul_le_mul_right' (by omega) A

theorem rotate_left_lt (x n : Nat) (hx : x < size) : rotate_left x n < size := by
  unfold rotate_left size at *
  have hsum : 2 ^ (32 - n % 32) * 2 ^ (n % 32) = 2 ^ 32 := by
    rw [← pow_add]
    congr 1
    omega
  rw [← hsum] at hx ⊢
  exact rot_chunk_lt x _ _ hx

theorem rotate_right_lt (x n : Nat) (hx : x < size) : rotate_right x n < size := by
  unfold rotate_right size at *
  have hsum : 2 ^ (n % 32) * 2 ^ (32 - n % 32) = 2 ^ 32 := by
    rw [← pow_add]
    congr 1
    omega
  rw [← hsum] at hx ⊢
  exact rot_chunk_lt x _ _ hx

theorem rotate_right_rotate_left (x n : Nat) (hx : x < size) :
    rotate_right (rotate_left x n) n = x := by
  unfold rotate_left rotate_right size at *
  have hk : n % 32 < 32 := Nat.mod_lt _ (by norm_num)
  have hsum : 2 ^ (32 - n % 32) * 2 ^ (n % 32) = 2 ^ 32 := by
    rw [← pow_add]
    congr 1
    omega
  have hApos : 0 < 2 ^ (n % 32) := pow_pos (by norm_num) _
  have hBpos : 0 < 2 ^ (32 - n % 32) := pow_pos (by norm_num) _
  have hdiv : x / 2 ^ (32 - n % 32) < 2 ^ (n % 32) := by
    rw [Nat.div_lt_iff_lt_mul hBpos, mul_comm]
    rw [hsum]
    exact hx
  have h1 : (x % 2 ^ (32 - n % 32) * 2 ^ (n % 32) + x / 2 ^ (32 - n % 32)) %
      2 ^ (n % 32) = x / 2 ^ (32 - n % 32) := by
    rw [mul_comm (x % 2 ^ (32 - n % 32)) (2 ^ (n % 32))]
    rw [Nat.mul_add_mod, Nat.mod_eq_of_lt hdiv]
  have h2 : (x % 2 ^ (32 - n % 32) * 2 ^ (n % 32) + x / 2 ^ (32 - n % 32)) /
      2 ^ (n % 32) = x % 2 ^ (32 - n % 32) := by
    rw [mul_comm (x % 2 ^ (32 - n % 32)) (2 ^ (n % 32))]
    rw [Nat.mul_add_div hApos, Nat.div_eq_of_lt hdiv, Nat.add_zero]
  rw [h1, h2]
  exact Nat.div_add_mod' x (2 ^ (32 - n % 32))

/-- Claim C5: rotations by any amount, including amounts at or above 32,
are total: the amount is taken modulo 32, the results stay in u32 range,
and rotating left then right by the same amount restores the value. -/
theorem claim_C5_rotate (x n : Nat) (hx : x < size) :
    rotate_left x n = rotate_left x (n % 32) ∧
    rotate_right x n = rotate_right x (n % 32) ∧
    rotate_left x n < size ∧
    rotate_right x n < size ∧
    rotate_right (rotate_left x n) n = x := by
  have hmod : n % 32 % 32 = n % 32 := by omega
  exact ⟨by simp only [rotate_left, hmod], by simp only [rotate_right, hmod],
    rotate_left_lt x n hx, rotate_right_lt x n hx,
    rotate_right_rotate_left x n hx⟩

/-- Claim C5, witness: the theorem applied at x = 1, n = 63, a rotation
amount above 32. -/
theorem claim_C5_witness : rotate_right (rotate_left 1 63) 63 = 1 :=
  (claim_C5_rotate 1 63 (by decide)).2.2.2.2

/-- Claim C6: npot x is the smallest power of two at or above x, taken
as 1 when x is 0; when x is at most 2^31 that power is representable and
checked_next_power_of_two returns it, wrapping_next_power_of_two equals
it, and the default form returns it; when x exceeds 2^31 the default
form traps with the overflow diagnostic, the checked form is absent, and
the wrapping form returns 0. -/
theorem claim_C6_next_power_of_two (x : Nat) (hx : x < size) :
    (∃ k, npot x = 2 ^ k) ∧
    x ≤ npot x ∧
    (x = 0 → npot x = 1) ∧
    (∀ k, x ≤ 2 ^ k → npot x ≤ 2 ^ k) ∧
    (x ≤ 2 ^ 31 →
      checked_next_power_of_two x = some (npot x) ∧
      wrapping_next_power_of_two x = npot x ∧
      next_power_of_two x = Except.ok (npot x)) ∧
    (2 ^ 31 < x →
      next_power_of_two x = Except.error add_overflow_msg ∧
      checked_next_power_of_two x = none ∧
      wrapping_next_power_of_two x = 0) := by
  have h12 : (1 : Nat) < 2 := one_lt_two
  have hle : x ≤ 2 ^ Nat.clog 2 x := Nat.le_pow_clog h12 x
  refine ⟨⟨Nat.clog 2 x, rfl⟩, hle, ?_, ?_, ?_, ?_⟩
  · intro h0
    subst h0
    simp [npot, Nat.clog_of_right_le_one]
  · intro k hk
    exact Nat.pow_le_pow_right (by norm_num)
      ((Nat.le_pow_iff_clog_le h12).mp hk)
  · intro hx31
    have hc31 : Nat.clog 2 x ≤ 31 := (Nat.le_pow_iff_clog_le h12).mp hx31
    have hnp : 2 ^ Nat.clog 2 x ≤ 2 ^ 31 :=
      Nat.pow_le_pow_right (by norm_num) hc31
    have hcond : npot x ≤ MAX := by
      unfold npot MAX
      norm_num at hnp ⊢
      omega
    have hmod : npot x % size = npot x := by
      apply Nat.mod_eq_of_lt
      unfold npot size
      norm_num at hnp ⊢
      omega
    refine ⟨?_, ?_, ?_⟩
    · unfold checked_next_power_of_two
      rw [if_pos hcond]
    · unfold wrapping_next_power_of_two
      exact hmod
    · unfold next_power_of_two
      rw [if_pos hcond]
  · intro hx31
    have hc32 : Nat.clog 2 x ≤ 32 := by
      apply (Nat.le_pow_iff_clog_le h12).mp
      unfold size at hx
      norm_num
      omega
    have hc32' : 31 < Nat.clog 2 x := by
      by_contra hc
      push_neg at hc
      have : x ≤ 2 ^ 31 := le_trans hle (Nat.pow_le_pow_right (by norm_num) hc)
      omega
    have hceq : Nat.clog 2 x = 32 := by omega
    have hnp : npot x = 2 ^ 32 := by
      unfold npot
      rw [hceq]
    have hcond : ¬ npot x ≤ MAX := by
      rw [hnp]
      unfold MAX
      norm_num
    refine ⟨?_, ?_, ?_⟩
    · unfold next_power_of_two
      rw [if_neg hcond]
    · unfold checked_next_power_of_two
      rw [if_neg hcond]
    · unfold wrapping_next_power_of_two
      rw [hnp]
      unfold size
      norm_num
/-- Claim C6, witness: the theorem applied at x = 1000, whose next power
of two is 1024 as the unit test asserts. -/
theorem claim_C6_witness : checked_next_power_of_two 1000 = some 1024 := by
  obtain ⟨⟨k, hk⟩, hge, -, hmin, hrep, -⟩ :=
    claim_C6_next_power_of_two 1000 (by decide)
  have hub : npot 1000 ≤ 1024 := hmin 10 (by norm_num)
  have hlb : 1024 ≤ npot 1000 := by
    rw [hk] at hge hub ⊢
    have hk10 : 10 ≤ k := by
      by_contra hlt
      push_neg at hlt
      have h9 : 2 ^ k ≤ 2 ^ 9 := Nat.pow_le_pow_right (by norm_num) (by omega)
      norm_num at h9
      omega
    calc (1024 : Nat) = 2 ^ 10 := by norm_num
      _ ≤ 2 ^ k := Nat.pow_le_pow_right (by norm_num) hk10
  have hnp : npot 1000 = 1024 := le_antisymm hub hlb
  have h := (hrep (by norm_num)).1
  rw [hnp] at h
  exact h

/-- Claim C8: the fallible conversion accepts any integer source value,
succeeds with the exact value when it lies in the u32 range, and reports
a range error (the absent result) for every negative value and for every
value above u32::MAX, such as 2^32. -/
theorem claim_C8_try_from (v : Int) :
    (0 ≤ v ∧ v ≤ (MAX : Nat) →
      try_from v = some v.toNat ∧ ((v.toNat : Nat) : Int) = v ∧
      v.toNat < size) ∧
    (v < 0 → try_from v = none) ∧
    (((MAX : Nat) : Int) < v → try_from v = none) ∧
    try_from (2 ^ 32) = none ∧
    try_from (-1) = none := by
  have hms : ((MAX : Nat) : Int) = 4294967295 := by
    unfold MAX
    norm_num
  have hsz : ((size : Nat) : Int) = 4294967296 := by
    unfold size
    norm_num
  refine ⟨?_, ?_, ?_, by decide, by decide⟩
  · rintro ⟨h0, h1⟩
    rw [hms] at h1
    have hlt : v < (size : Nat) := by
      rw [hsz]
      omega
    refine ⟨?_, Int.toNat_of_nonneg h0, ?_⟩
    · unfold try_from
      rw [if_pos ⟨h0, hlt⟩]
    · have : (v.toNat : Int) < ((size : Nat) : Int) := by
        rw [Int.toNat_of_nonneg h0]
        exact hlt
      exact_mod_cast this
  · intro h
    unfold try_from
    rw [if_neg]
    rintro ⟨h0, _⟩
    omega
  · intro h
    rw [hms] at h
    unfold try_from
    rw [if_neg]
    rintro ⟨_, hlt⟩
    rw [hsz] at hlt
    omega

/-- Claim C8, witness: the theorem applied at the in-range value 2. -/
theorem claim_C8_witness : try_from 2 = some 2 :=
  ((claim_C8_try_from 2).1 (by constructor <;> norm_num [MAX])).1

end Sus.U32
